import Mathlib

/-!
Verification of the Memory Palace front-end (`src/index.tsx`) against its
natural-language specification.  The TypeScript program is shallowly embedded:
the mutable module-level state becomes an explicit `AppState` record, the
asynchronous illustration fan-out becomes a fold over an explicit list of
resolution events, and `Math.random`-driven shuffles take the sequence of
drawn indices as a parameter, so that every property is quantified over all
possible random outcomes and all possible resolution orders.
-/

namespace MemoryPalace

/-- Mirrors the `Character` interface: `imageUrl` is optional and absent
until an illustration request succeeds. -/
structure Character where
  fact : String
  characterName : String
  imagePrompt : String
  imageUrl : Option String := none
deriving DecidableEq, Repr

/-- A character object as parsed from the narrative response: the JSON
schema has exactly the three string fields, no `imageUrl`. -/
structure Descriptor where
  fact : String
  characterName : String
  imagePrompt : String
deriving DecidableEq, Repr

/-- A parsed descriptor enters the deck with `imageUrl` absent. -/
def Descriptor.toCharacter (d : Descriptor) : Character :=
  { fact := d.fact, characterName := d.characterName,
    imagePrompt := d.imagePrompt, imageUrl := none }

/-- The parsed narrative response: a story string and an ordered list of
character descriptors. -/
structure NarrativeResponse where
  story : String
  characters : List Descriptor
deriving DecidableEq, Repr

def COINS_PER_STORY : Nat := 10

def COINS_PER_CORRECT_ANSWER : Nat := 5

/-! ### Fisher–Yates shuffle

`[distractors[i], distractors[j]] = [distractors[j], distractors[i]]` is an
index swap; the `Math.random` draw `Math.floor(Math.random() * (i + 1))`
is modelled by an arbitrary function `r : Nat → Nat` reduced mod `i + 1`,
which ranges over exactly the values `0 .. i` the source can draw. -/

/-- Swap the elements at positions `i` and `j`; out-of-range indices leave
the list unchanged (never hit by the source's loop bounds). -/
def listSwap (l : List α) (i j : Nat) : List α :=
  match l[i]?, l[j]? with
  | some a, some b => (l.set i b).set j a
  | _, _ => l

/-- The loop `for (let i = len - 1; i > 0; i--)`: at index `i` swap with a
drawn index `r i % (i + 1) ≤ i`, then continue with `i - 1`. -/
def fyLoop (r : Nat → Nat) : List α → Nat → List α
  | l, 0 => l
  | l, i + 1 => fyLoop r (listSwap l (i + 1) (r (i + 1) % (i + 2))) i

/-- The whole in-place shuffle of the source, from `length - 1` down to `1`. -/
def fisherYates (r : Nat → Nat) (l : List α) : List α :=
  fyLoop r l (l.length - 1)

theorem cons_set_perm {α : Type _} (b a : α) :
    ∀ (t : List α) (k : Nat), t[k]? = some b → (b :: t.set k a).Perm (a :: t)
  | x :: t, 0, h => by
    simp only [List.getElem?_cons_zero, Option.some.injEq] at h
    subst h
    exact List.Perm.swap a x t
  | x :: t, k + 1, h => by
    simp only [List.getElem?_cons_succ] at h
    have ih := cons_set_perm b a t k h
    show (b :: x :: t.set k a).Perm (a :: x :: t)
    have s1 : (b :: x :: t.set k a).Perm (x :: b :: t.set k a) := List.Perm.swap x b _
    have s2 : (x :: b :: t.set k a).Perm (x :: a :: t) := ih.cons x
    have s3 : (x :: a :: t).Perm (a :: x :: t) := List.Perm.swap a x t
    exact (s1.trans s2).trans s3

theorem set_set_perm {α : Type _} :
    ∀ (l : List α) (i j : Nat) (a b : α), l[i]? = some a → l[j]? = some b →
      ((l.set i b).set j a).Perm l
  | l, 0, 0, a, b, hi, hj => by
    cases l with
    | nil => simp at hi
    | cons x t =>
      simp only [List.getElem?_cons_zero, Option.some.injEq] at hi hj
      subst hi; subst hj
      simp
  | l, 0, j + 1, a, b, hi, hj => by
    cases l with
    | nil => simp at hi
    | cons x t =>
      simp only [List.getElem?_cons_zero, Option.some.injEq] at hi
      simp only [List.getElem?_cons_succ] at hj
      subst hi
      show ((b :: t).set (j + 1) x).Perm (x :: t)
      show (b :: t.set j x).Perm (x :: t)
      exact cons_set_perm b x t j hj
  | l, i + 1, 0, a, b, hi, hj => by
    cases l with
    | nil => simp at hi
    | cons x t =>
      simp only [List.getElem?_cons_succ] at hi
      simp only [List.getElem?_cons_zero, Option.some.injEq] at hj
      subst hj
      show (a :: (t.set i x)).Perm (x :: t)
      exact cons_set_perm a x t i hi
  | l, i + 1, j + 1, a, b, hi, hj => by
    cases l with
    | nil => simp at hi
    | cons x t =>
      simp only [List.getElem?_cons_succ] at hi hj
      have ih := set_set_perm t i j a b hi hj
      show (x :: (t.set i b).set j a).Perm (x :: t)
      exact ih.cons x

/-- Every single swap is a permutation of the list. -/
theorem listSwap_perm (l : List α) (i j : Nat) : (listSwap l i j).Perm l := by
  unfold listSwap
  cases hi : l[i]? with
  | none => exact List.Perm.refl l
  | some a =>
    cases hj : l[j]? with
    | none => exact List.Perm.refl l
    | some b => exact set_set_perm l i j a b hi hj

/-- The shuffle loop is a permutation of its input. -/
theorem fyLoop_perm (r : Nat → Nat) : ∀ (l : List α) (n : Nat), (fyLoop r l n).Perm l
  | l, 0 => List.Perm.refl l
  | l, n + 1 =>
    (fyLoop_perm r (listSwap l (n + 1) (r (n + 1) % (n + 2))) n).trans
      (listSwap_perm l (n + 1) (r (n + 1) % (n + 2)))

/-- For every outcome of the random draws, `fisherYates` returns a
permutation of its input. -/
theorem fisherYates_perm (r : Nat → Nat) (l : List α) : (fisherYates r l).Perm l :=
  fyLoop_perm r l (l.length - 1)

/-- Mirror of `generateMultipleChoice`: the distractor pool is every deck
fact different from the correct answer; shuffle it (draws `r1`), keep the
first two (`slice(0, 2)`), prepend the correct answer, and shuffle the
option list (draws `r2`). -/
def generateMultipleChoice (r1 r2 : Nat → Nat) (currentDeck : List Character)
    (correctAnswer : String) : List String :=
  let allFacts := currentDeck.map (fun c => c.fact)
  let distractors := allFacts.filter (fun fact => fact ≠ correctAnswer)
  let shuffled := fisherYates r1 distractors
  let options := correctAnswer :: shuffled.take 2
  fisherYates r2 options

/-! ### Application state

The module-level mutable variables of `index.tsx`, together with the DOM
surfaces the claims talk about (story output, gallery cards, the review
button) and the `localStorage` slot under the `memoryPalaceCoins` key. -/

/-- One card in the character gallery: the placeholder with a spinner, a
generated image, or the degraded failure marker. -/
inductive Card
  | pending
  | image (url : String)
  | failed
deriving DecidableEq, Repr

/-- The three mutually exclusive visible regions: the main authoring view,
the quiz view, and the summary view. -/
inductive ViewPhase
  | main
  | quiz
  | summary
deriving DecidableEq, Repr

structure AppState where
  isLoading : Bool
  coins : Nat
  currentDeck : List Character
  currentQuestionIndex : Nat
  score : Nat
  coinsEarnedThisSession : Nat
  /-- The `memoryPalaceCoins` slot of `localStorage`; `none` is a missing key. -/
  storage : Option (List Char)
  storyOutput : String
  gallery : List Card
  startReviewHidden : Bool
  view : ViewPhase
deriving DecidableEq, Repr

/-! ### Persistence: decimal strings

`saveGameData` stores `coins.toString()` and `loadGameData` reads it back
with `parseInt(savedCoins, 10)`.  The decimal rendering of a `Nat` and the
digit-prefix parse of `parseInt` are embedded directly. -/

/-- The character for one decimal digit (`48` is the code of the zero digit). -/
def digitChar (d : Nat) : Char := Char.ofNat (48 + d)

/-- Decimal rendering of a natural number, most significant digit first;
matches `Number.prototype.toString` on non-negative integers. -/
def natToChars (n : Nat) : List Char :=
  if _h : n < 10 then [digitChar n]
  else natToChars (n / 10) ++ [digitChar (n % 10)]
decreasing_by exact Nat.div_lt_self (by omega) (by omega)

/-- The numeric value of a decimal digit character, `none` for non-digits. -/
def digitVal (c : Char) : Option Nat :=
  if 48 ≤ c.toNat ∧ c.toNat ≤ 57 then some (c.toNat - 48) else none

/-- The digit loop of `parseInt`: consume leading digits, stop at the
first non-digit. -/
def parseDigits : List Char → Nat → Nat
  | [], acc => acc
  | c :: cs, acc =>
    match digitVal c with
    | some d => parseDigits cs (acc * 10 + d)
    | none => acc

/-- Evaluation of `parseInt(s, 10)` on the strings this program stores:
`none` is `NaN`
(no leading digit; sign and whitespace handling is irrelevant because
`saveGameData` writes bare digit strings). -/
def jsParseInt (s : List Char) : Option Nat :=
  match s with
  | [] => none
  | c :: _ =>
    match digitVal c with
    | none => none
    | some _ => some (parseDigits s 0)

/-- Mirror of `saveGameData`: write the decimal string of the balance. -/
def saveGameData (st : AppState) : AppState :=
  { st with storage := some (natToChars st.coins) }

/-- Mirror of `loadGameData`: `savedCoins ? parseInt(savedCoins, 10) : 0`.
A missing key and the empty string are both falsy and default to 0.  A
stored non-numeric string would leave `coins` as `NaN` in JS; `NaN` has no
`Nat` counterpart and `saveGameData` never writes such a string, so that
unreachable branch also defaults to 0 here. -/
def loadGameData (st : AppState) : AppState :=
  match st.storage with
  | none => { st with coins := 0 }
  | some s =>
    if s = [] then { st with coins := 0 }
    else { st with coins := (jsParseInt s).getD 0 }

/-- Mirror of `awardCoins`: add the amount to the balance and to the
session counter, persist write-through via `saveGameData`, and record the
one reward event this call fires. -/
def awardCoins (st : AppState) (amount : Nat) : AppState × List Nat :=
  (saveGameData
    { st with coins := st.coins + amount,
              coinsEarnedThisSession := st.coinsEarnedThisSession + amount },
   [amount])

/-! ### Quiz session -/

/-- Mirror of `startQuiz`: a deck smaller than 2 is rejected (`alert` and
early return, no mutation); otherwise switch to the quiz view and reset the
session counters. -/
def startQuiz (st : AppState) : AppState :=
  if st.currentDeck.length < 2 then st
  else
    { st with view := ViewPhase.quiz, currentQuestionIndex := 0, score := 0,
              coinsEarnedThisSession := 0 }

/-- Mirror of `handleAnswer`, including the deferred advance in its
`setTimeout` callback: on a correct selection increment `score` and fire
`awardCoins(COINS_PER_CORRECT_ANSWER)`; then advance the question index and
either display the next question or show the summary. Returns the new state
and the reward events fired. -/
def handleAnswer (st : AppState) (selectedAnswer correctAnswer : String) :
    AppState × List Nat :=
  let fed : AppState × List Nat :=
    if selectedAnswer = correctAnswer then
      awardCoins { st with score := st.score + 1 } COINS_PER_CORRECT_ANSWER
    else (st, [])
  let st2 : AppState :=
    { fed.1 with currentQuestionIndex := fed.1.currentQuestionIndex + 1 }
  if st2.currentQuestionIndex < st2.currentDeck.length then (st2, fed.2)
  else ({ st2 with view := ViewPhase.summary }, fed.2)

/-- One answer click as wired by `displayQuestion`: the correct answer
passed to `handleAnswer` is the current character's `fact`; answer buttons
only exist while a question is displayed. -/
def answerEvent (st : AppState) (selectedAnswer : String) : AppState × List Nat :=
  match st.currentDeck[st.currentQuestionIndex]? with
  | some c => handleAnswer st selectedAnswer c.fact
  | none => (st, [])

/-- A whole quiz session after `startQuiz`: the user's successive answer
selections, folded through `answerEvent`. -/
def runAnswers (st : AppState) (selections : List String) : AppState :=
  selections.foldl (fun s sel => (answerEvent s sel).1) st

/-! ### Illustration fan-out

Each `generateImage(char, index)` call runs a synchronous prefix (append a
placeholder card, `currentDeck[index] = characterData`) before its first
`await`; the calls are issued in index order by the `map`, so all prefixes
run before any resolution.  The resolutions then arrive in an arbitrary
order, modelled as a list of events `(index, some url | none)`. -/

structure ImagePhase where
  deck : List Character
  gallery : List Card
deriving DecidableEq, Repr

/-- The state after every synchronous prefix has run: descriptor `i` sits
at deck index `i` with `imageUrl` absent, and card `i` is a placeholder. -/
def initialPhase (characters : List Descriptor) : ImagePhase :=
  { deck := characters.map Descriptor.toCharacter,
    gallery := characters.map (fun _ => Card.pending) }

/-- Resolution of one illustration request: on success write the data URL
into the deck entry at the request's index and replace its card with the
image; on failure (the `catch`) leave the deck entry untouched and show the
degraded marker on its card. -/
def applyResolution (p : ImagePhase) (index : Nat) (outcome : Option String) :
    ImagePhase :=
  match outcome with
  | some url =>
    { deck :=
        match p.deck[index]? with
        | some c => p.deck.set index { c with imageUrl := some url }
        | none => p.deck,
      gallery := p.gallery.set index (Card.image url) }
  | none => { p with gallery := p.gallery.set index Card.failed }

/-- The `Promise.all` settlement: apply the resolution events in arrival
order.  `generateImage` catches its own failure, so every request settles
and the fold always runs to completion. -/
def settleAll (p : ImagePhase) (events : List (Nat × Option String)) : ImagePhase :=
  events.foldl (fun q e => applyResolution q e.1 e.2) p

/-! ### Story generation -/

/-- JS `String.prototype.trim`: strip leading and trailing whitespace. -/
def jsTrim (s : String) : String :=
  String.mk (((s.data.dropWhile Char.isWhitespace).reverse.dropWhile
    Char.isWhitespace).reverse)

def errorMessage : String :=
  "An error occurred while creating your palace. Please check the console for details."

def placeholderMessage : String := "Your magical story will appear here..."

/-- Mirror of `resetOutput` (its state-visible effects): placeholder story
text, empty gallery, review button hidden. -/
def resetOutput (st : AppState) : AppState :=
  { st with storyOutput := placeholderMessage, gallery := [],
            startReviewHidden := true }

/-- Mirror of `generateStoryAndImages`.  The external narrative call is a
parameter (`Except Unit NarrativeResponse`; transport, JSON-parse and
schema failures all land in the single `catch`), and the illustration
resolutions are an event list as in `settleAll`.  Returns the new state and
the list of `awardCoins` amounts fired during the run. -/
def generateStoryAndImages (st : AppState) (factsRaw : String)
    (narrative : Except Unit NarrativeResponse)
    (events : List (Nat × Option String)) : AppState × List Nat :=
  if st.isLoading then (st, [])
  else
    let facts := jsTrim factsRaw
    if facts = "" then (st, [])
    else
      let st1 := { st with isLoading := true, storyOutput := "", gallery := [],
                           startReviewHidden := true, currentDeck := [] }
      match narrative with
      | Except.error _ =>
        ({ resetOutput st1 with storyOutput := errorMessage, isLoading := false }, [])
      | Except.ok data =>
        let st2 := { st1 with storyOutput := data.story }
        let st3 :=
          if data.characters.length > 0 then
            let phase := settleAll (initialPhase data.characters) events
            { st2 with currentDeck := phase.deck, gallery := phase.gallery,
                       startReviewHidden := false }
          else st2
        let fed := awardCoins st3 COINS_PER_STORY
        ({ fed.1 with isLoading := false }, fed.2)

/-! ### Sample values used by the concrete witnesses -/

def charA : Character := { fact := "A", characterName := "na", imagePrompt := "pa" }

def charB : Character := { fact := "B", characterName := "nb", imagePrompt := "pb" }

def charC : Character := { fact := "C", characterName := "nc", imagePrompt := "pc" }

def descA : Descriptor := { fact := "A", characterName := "na", imagePrompt := "pa" }

def descB : Descriptor := { fact := "B", characterName := "nb", imagePrompt := "pb" }

/-- A sample idle state whose deck has a single card. -/
def stMain : AppState :=
  { isLoading := false, coins := 7, currentDeck := [charA], currentQuestionIndex := 3,
    score := 2, coinsEarnedThisSession := 4, storage := none, storyOutput := "s",
    gallery := [], startReviewHidden := false, view := ViewPhase.main }

/-- A sample idle state whose deck has two cards. -/
def stTwo : AppState :=
  { stMain with currentDeck := [charA, charB] }

/-! ### Decimal round trip -/

theorem digitVal_digitChar : ∀ d, d < 10 → digitVal (digitChar d) = some d := by decide

theorem natToChars_ne_nil (n : Nat) : natToChars n ≠ [] := by
  rw [natToChars]
  split <;> simp

theorem natToChars_digits (n : Nat) : ∀ c ∈ natToChars n, (digitVal c).isSome := by
  induction n using Nat.strong_induction_on with
  | _ n ih =>
    rw [natToChars]
    split
    case isTrue h =>
      intro c hc
      rw [List.mem_singleton] at hc
      subst hc
      rw [digitVal_digitChar n h]
      rfl
    case isFalse h =>
      intro c hc
      rw [List.mem_append] at hc
      cases hc with
      | inl h1 => exact ih (n / 10) (Nat.div_lt_self (by omega) (by omega)) c h1
      | inr h2 =>
        rw [List.mem_singleton] at h2
        subst h2
        rw [digitVal_digitChar (n % 10) (Nat.mod_lt n (by omega))]
        rfl

/-- The positional weight of a decimal rendering: 10 to the number of its
digits, following the recursion of `natToChars`. -/
def decWeight (n : Nat) : Nat :=
  if _h : n < 10 then 10 else 10 * decWeight (n / 10)
decreasing_by exact Nat.div_lt_self (by omega) (by omega)

theorem parseDigits_append (ys : List Char) :
    ∀ (xs : List Char) (acc : Nat), (∀ c ∈ xs, (digitVal c).isSome) →
      parseDigits (xs ++ ys) acc = parseDigits ys (parseDigits xs acc)
  | [], _, _ => rfl
  | c :: cs, acc, h => by
    obtain ⟨d, hd⟩ := Option.isSome_iff_exists.mp (h c (List.mem_cons_self c cs))
    simp only [List.cons_append, parseDigits, hd]
    exact parseDigits_append ys cs (acc * 10 + d)
      (fun x hx => h x (List.mem_cons_of_mem c hx))

theorem parseDigits_natToChars (n : Nat) :
    ∀ acc, parseDigits (natToChars n) acc = acc * decWeight n + n := by
  induction n using Nat.strong_induction_on with
  | _ n ih =>
    intro acc
    rw [natToChars, decWeight]
    by_cases h : n < 10
    · rw [dif_pos h, dif_pos h]
      simp [parseDigits, digitVal_digitChar n h]
    · rw [dif_neg h, dif_neg h]
      rw [parseDigits_append [digitChar (n % 10)] (natToChars (n / 10)) acc
        (natToChars_digits (n / 10))]
      rw [ih (n / 10) (Nat.div_lt_self (by omega) (by omega)) acc]
      have hm : digitVal (digitChar (n % 10)) = some (n % 10) :=
        digitVal_digitChar (n % 10) (Nat.mod_lt n (by omega))
      simp only [parseDigits, hm]
      have hqr : 10 * (n / 10) + n % 10 = n := Nat.div_add_mod n 10
      calc (acc * decWeight (n / 10) + n / 10) * 10 + n % 10
          = acc * (10 * decWeight (n / 10)) + (10 * (n / 10) + n % 10) := by ring
        _ = acc * (10 * decWeight (n / 10)) + n := by rw [hqr]

theorem jsParseInt_natToChars (n : Nat) : jsParseInt (natToChars n) = some n := by
  cases h : natToChars n with
  | nil => exact absurd h (natToChars_ne_nil n)
  | cons c cs =>
    have hcmem : c ∈ natToChars n := by rw [h]; exact List.mem_cons_self c cs
    obtain ⟨d, hd⟩ := Option.isSome_iff_exists.mp (natToChars_digits n c hcmem)
    simp only [jsParseInt, hd]
    rw [← h, parseDigits_natToChars n 0]
    simp

/-! ### Claim theorems -/

/-- C3: for every answer selection, the reward events fired by
`handleAnswer` are exactly one `COINS_PER_CORRECT_ANSWER` award when the
selected option equals the current question's correct fact, and none
otherwise; `score` is incremented by exactly 1 in the former case and
unchanged in the latter. -/
theorem handleAnswer_reward_iff_correct (st : AppState)
    (selectedAnswer correctAnswer : String) :
    (handleAnswer st selectedAnswer correctAnswer).2 =
      (if selectedAnswer = correctAnswer then [COINS_PER_CORRECT_ANSWER] else []) ∧
    (handleAnswer st selectedAnswer correctAnswer).1.score =
      (if selectedAnswer = correctAnswer then st.score + 1 else st.score) := by
  unfold handleAnswer awardCoins saveGameData
  by_cases h : selectedAnswer = correctAnswer <;> simp [h] <;>
    constructor <;> split <;> rfl

/-- C6: starting a quiz on a deck with fewer than 2 entries is rejected
(only an alert is shown) and the whole application state is unchanged: no
transition to the quiz view, and `currentQuestionIndex`, `score` and
`coinsEarnedThisSession` keep their prior values. -/
theorem startQuiz_rejects_small_deck (st : AppState)
    (h : st.currentDeck.length < 2) : startQuiz st = st := by
  unfold startQuiz
  rw [if_pos h]

/-- Witness for C6 on a deck of size 1. -/
theorem startQuiz_rejects_small_deck_witness :
    stMain.currentDeck.length < 2 ∧ startQuiz stMain = stMain :=
  ⟨by decide, startQuiz_rejects_small_deck stMain (by decide)⟩

/-- C7: a facts input that is empty after trimming is rejected
synchronously (only an alert): no state field changes, no reward event
fires, and the outcome does not depend on the external calls at all. -/
theorem empty_facts_rejected (st : AppState) (factsRaw : String)
    (narrative : Except Unit NarrativeResponse)
    (events : List (Nat × Option String)) (hload : st.isLoading = false)
    (hempty : jsTrim factsRaw = "") :
    generateStoryAndImages st factsRaw narrative events = (st, []) := by
  unfold generateStoryAndImages
  rw [hload]
  simp [hempty]

/-- Witness for C7 on a whitespace-only input. -/
theorem empty_facts_rejected_witness :
    stMain.isLoading = false ∧ jsTrim "   " = "" ∧
    generateStoryAndImages stMain "   " (Except.error ()) [] = (stMain, []) :=
  ⟨by decide, by decide,
   empty_facts_rejected stMain "   " (Except.error ()) [] (by decide) (by decide)⟩

/-- C4: every successful story-generation run fires `awardCoins` with
exactly `COINS_PER_STORY`, exactly once, whatever the character count and
whatever the illustration outcomes. -/
theorem story_award_fixed_once (st : AppState) (factsRaw : String)
    (data : NarrativeResponse) (events : List (Nat × Option String))
    (hload : st.isLoading = false) (hfacts : jsTrim factsRaw ≠ "") :
    (generateStoryAndImages st factsRaw (Except.ok data) events).2 =
      [COINS_PER_STORY] := by
  unfold generateStoryAndImages awardCoins
  rw [hload]
  simp [hfacts]

/-- Witness for C4 on a story with zero characters. -/
theorem story_award_fixed_once_witness :
    stMain.isLoading = false ∧ jsTrim "facts" ≠ "" ∧
    (generateStoryAndImages stMain "facts"
      (Except.ok { story := "s", characters := [] }) []).2 = [COINS_PER_STORY] :=
  ⟨by decide, by decide,
   story_award_fixed_once stMain "facts" { story := "s", characters := [] } []
     (by decide) (by decide)⟩

/-- C5: if the narrative-stage call fails, the submission leaves the coin
balance and its persisted copy unchanged, discards all in-progress output
(empty deck and gallery), shows the single generic error message, clears
the loading flag, and fires no reward event. -/
theorem narrative_failure_preserves_ledger (st : AppState) (factsRaw : String)
    (events : List (Nat × Option String)) (hload : st.isLoading = false)
    (hfacts : jsTrim factsRaw ≠ "") :
    (generateStoryAndImages st factsRaw (Except.error ()) events).1.coins = st.coins ∧
    (generateStoryAndImages st factsRaw (Except.error ()) events).1.storage = st.storage ∧
    (generateStoryAndImages st factsRaw (Except.error ()) events).1.currentDeck = [] ∧
    (generateStoryAndImages st factsRaw (Except.error ()) events).1.storyOutput
      = errorMessage ∧
    (generateStoryAndImages st factsRaw (Except.error ()) events).1.gallery = [] ∧
    (generateStoryAndImages st factsRaw (Except.error ()) events).1.isLoading = false ∧
    (generateStoryAndImages st factsRaw (Except.error ()) events).2 = [] := by
  unfold generateStoryAndImages resetOutput
  rw [hload]
  simp [hfacts]

/-- C9: for every non-negative integer balance, persisting the reward
ledger (`saveGameData`) and then reloading it (`loadGameData`, simulating a
restart) yields a balance equal to the one immediately before
persistence. -/
theorem ledger_roundTrip (st : AppState) :
    (loadGameData (saveGameData st)).coins = st.coins := by
  unfold saveGameData loadGameData
  simp [natToChars_ne_nil st.coins, jsParseInt_natToChars]

/-- One answer event preserves the session-reward invariant. -/
theorem answerEvent_session_invariant (st : AppState) (sel : String)
    (h : st.coinsEarnedThisSession = COINS_PER_CORRECT_ANSWER * st.score) :
    (answerEvent st sel).1.coinsEarnedThisSession =
      COINS_PER_CORRECT_ANSWER * (answerEvent st sel).1.score := by
  unfold answerEvent handleAnswer awardCoins saveGameData
  cases hq : st.currentDeck[st.currentQuestionIndex]? with
  | none => exact h
  | some c =>
    have h5 : st.coinsEarnedThisSession = 5 * st.score := by
      simpa [COINS_PER_CORRECT_ANSWER] using h
    by_cases hsel : sel = c.fact <;> simp [hsel] <;> split <;>
      simp [COINS_PER_CORRECT_ANSWER] <;> omega

/-- Folding any sequence of answer events preserves the session-reward
invariant. -/
theorem runAnswers_session_invariant :
    ∀ (sels : List String) (st : AppState),
      st.coinsEarnedThisSession = COINS_PER_CORRECT_ANSWER * st.score →
      (runAnswers st sels).coinsEarnedThisSession =
        COINS_PER_CORRECT_ANSWER * (runAnswers st sels).score
  | [], _, h => h
  | sel :: sels, st, h =>
    runAnswers_session_invariant sels (answerEvent st sel).1
      (answerEvent_session_invariant st sel h)

/-- C10: throughout every quiz session, after `startQuiz` on a deck of at
least 2 cards and any sequence of answer selections,
`coinsEarnedThisSession` equals `COINS_PER_CORRECT_ANSWER` times `score`;
in particular the session-reward figure the summary reads is exactly 5
times the final score. -/
theorem session_reward_five_per_point (st : AppState) (selections : List String)
    (h : 2 ≤ st.currentDeck.length) :
    (runAnswers (startQuiz st) selections).coinsEarnedThisSession =
      COINS_PER_CORRECT_ANSWER * (runAnswers (startQuiz st) selections).score := by
  apply runAnswers_session_invariant
  unfold startQuiz
  rw [if_neg (by omega)]
  simp

/-- Witness for C10 on a two-card deck with one correct and one wrong
answer. -/
theorem session_reward_five_per_point_witness :
    2 ≤ stTwo.currentDeck.length ∧
    (runAnswers (startQuiz stTwo) ["A", "x"]).coinsEarnedThisSession =
      COINS_PER_CORRECT_ANSWER * (runAnswers (startQuiz stTwo) ["A", "x"]).score :=
  ⟨by decide, session_reward_five_per_point stTwo ["A", "x"] (by decide)⟩

/-- Witness for C5. -/
theorem narrative_failure_preserves_ledger_witness :
    stMain.isLoading = false ∧ jsTrim "facts" ≠ "" ∧
    (generateStoryAndImages stMain "facts" (Except.error ()) []).1.coins = stMain.coins ∧
    (generateStoryAndImages stMain "facts" (Except.error ()) []).1.storage
      = stMain.storage ∧
    (generateStoryAndImages stMain "facts" (Except.error ()) []).1.currentDeck = [] ∧
    (generateStoryAndImages stMain "facts" (Except.error ()) []).1.storyOutput
      = errorMessage ∧
    (generateStoryAndImages stMain "facts" (Except.error ()) []).1.gallery = [] ∧
    (generateStoryAndImages stMain "facts" (Except.error ()) []).1.isLoading = false ∧
    (generateStoryAndImages stMain "facts" (Except.error ()) []).2 = [] :=
  ⟨by decide, by decide,
   narrative_failure_preserves_ledger stMain "facts" [] (by decide) (by decide)⟩

/-! ### Per-index analysis of the settlement fold -/

/-- The success URLs that the event list delivers to index `j`, in arrival
order. -/
def urlsAt (events : List (Nat × Option String)) (j : Nat) : List String :=
  events.filterMap (fun e => if e.1 = j then e.2 else none)

/-- The effect on one deck entry of the success resolutions that target
it. -/
def applyUrls (c : Character) (urls : List String) : Character :=
  urls.foldl (fun d url => { d with imageUrl := some url }) c

theorem applyUrls_core : ∀ (urls : List String) (c : Character),
    (applyUrls c urls).fact = c.fact ∧
    (applyUrls c urls).characterName = c.characterName ∧
    (applyUrls c urls).imagePrompt = c.imagePrompt
  | [], _ => ⟨rfl, rfl, rfl⟩
  | u :: us, c => applyUrls_core us { c with imageUrl := some u }

theorem applyResolution_deck_length (p : ImagePhase) (i : Nat) (o : Option String) :
    (applyResolution p i o).deck.length = p.deck.length := by
  cases o with
  | none => rfl
  | some url =>
    show (match p.deck[i]? with
      | some c => p.deck.set i { c with imageUrl := some url }
      | none => p.deck).length = p.deck.length
    cases p.deck[i]? <;> simp

theorem settleAll_deck_length :
    ∀ (events : List (Nat × Option String)) (p : ImagePhase),
      (settleAll p events).deck.length = p.deck.length
  | [], _ => rfl
  | e :: es, p => by
    rw [show settleAll p (e :: es) = settleAll (applyResolution p e.1 e.2) es from rfl]
    rw [settleAll_deck_length es (applyResolution p e.1 e.2)]
    exact applyResolution_deck_length p e.1 e.2

theorem settleAll_deck_getElem :
    ∀ (events : List (Nat × Option String)) (p : ImagePhase) (j : Nat) (c : Character),
      p.deck[j]? = some c →
      (settleAll p events).deck[j]? = some (applyUrls c (urlsAt events j))
  | [], _, _, c, h => by simpa [settleAll, urlsAt, applyUrls] using h
  | (i, out) :: es, p, j, c, h => by
    show (settleAll (applyResolution p i out) es).deck[j]? = _
    cases out with
    | none =>
      have hd : (applyResolution p i none).deck[j]? = some c := h
      rw [settleAll_deck_getElem es (applyResolution p i none) j c hd]
      have hu : urlsAt ((i, none) :: es) j = urlsAt es j := by
        by_cases hij : i = j <;> simp [urlsAt, List.filterMap_cons, hij]
      rw [hu]
    | some url =>
      by_cases hij : i = j
      · subst hij
        have hlt : i < p.deck.length := by
          by_contra hge
          rw [List.getElem?_eq_none (by omega)] at h
          cases h
        have hd : (applyResolution p i (some url)).deck[i]?
            = some { c with imageUrl := some url } := by
          show (match p.deck[i]? with
            | some d => p.deck.set i { d with imageUrl := some url }
            | none => p.deck)[i]? = _
          rw [h]
          exact List.getElem?_set_eq_of_lt _ hlt
        rw [settleAll_deck_getElem es (applyResolution p i (some url)) i _ hd]
        have hu : urlsAt ((i, some url) :: es) i = url :: urlsAt es i := by
          simp [urlsAt, List.filterMap_cons]
        rw [hu]
        rfl
      · have hd : (applyResolution p i (some url)).deck[j]? = some c := by
          show (match p.deck[i]? with
            | some d => p.deck.set i { d with imageUrl := some url }
            | none => p.deck)[j]? = some c
          cases p.deck[i]? with
          | none => exact h
          | some d => rw [List.getElem?_set_ne hij]; exact h
        rw [settleAll_deck_getElem es (applyResolution p i (some url)) j c hd]
        have hu : urlsAt ((i, some url) :: es) j = urlsAt es j := by
          simp [urlsAt, List.filterMap_cons, hij]
        rw [hu]

theorem initialPhase_deck_getElem (characters : List Descriptor) (i : Nat)
    (hi : i < characters.length) :
    (initialPhase characters).deck[i]? = some ((characters[i]).toCharacter) := by
  unfold initialPhase
  simp [List.getElem?_map, List.getElem?_eq_getElem hi]

/-- C2: for every batch of descriptors and every order in which the
illustration requests resolve (each request settling exactly once), the
deck entry at index `i` carries the `i`-th descriptor of the narrative
response: its fact, display name and image prompt are exactly the
descriptor's, independent of arrival order. -/
theorem deck_order_independent_of_resolution (characters : List Descriptor)
    (events : List (Nat × Option String)) (i : Nat) (hi : i < characters.length)
    (_hall : (events.map Prod.fst).Perm (List.range characters.length)) :
    ∃ c, (settleAll (initialPhase characters) events).deck[i]? = some c ∧
      c.fact = (characters[i]).fact ∧
      c.characterName = (characters[i]).characterName ∧
      c.imagePrompt = (characters[i]).imagePrompt := by
  have h0 := initialPhase_deck_getElem characters i hi
  have h1 := settleAll_deck_getElem events (initialPhase characters) i _ h0
  have hcore := applyUrls_core (urlsAt events i) ((characters[i]).toCharacter)
  exact ⟨_, h1, hcore.1, hcore.2.1, hcore.2.2⟩

/-- Witness for C2: two descriptors whose illustrations resolve in reverse
order of submission. -/
theorem deck_order_independent_of_resolution_witness :
    0 < ([descA, descB] : List Descriptor).length ∧
    (([((1 : Nat), some "u1"), ((0 : Nat), some "u0")].map Prod.fst).Perm
      (List.range ([descA, descB] : List Descriptor).length)) ∧
    ∃ c, (settleAll (initialPhase [descA, descB])
        [(1, some "u1"), (0, some "u0")]).deck[0]? = some c ∧
      c.fact = descA.fact ∧ c.characterName = descA.characterName ∧
      c.imagePrompt = descA.imagePrompt :=
  ⟨by decide, by decide,
   deck_order_independent_of_resolution [descA, descB]
     [(1, some "u1"), (0, some "u0")] 0 (by decide) (by decide)⟩

theorem range_filterMap_at (g : Nat → Option String) :
    ∀ (n j : Nat), j < n →
      (List.range n).filterMap (fun i => if i = j then g i else none) = (g j).toList := by
  intro n
  induction n with
  | zero => intro j hj; exact absurd hj (Nat.not_lt_zero j)
  | succ n ih =>
    intro j hj
    rw [List.range_succ, List.filterMap_append]
    by_cases hjn : j < n
    · rw [ih j hjn]
      have hlast : List.filterMap (fun i => if i = j then g i else none) [n] = [] := by
        simp [List.filterMap_cons, show n ≠ j by omega]
      rw [hlast, List.append_nil]
    · have hjn2 : j = n := by omega
      subst hjn2
      have hhead : (List.range j).filterMap (fun i => if i = j then g i else none)
          = [] := by
        apply List.filterMap_eq_nil_iff.mpr
        intro a ha
        have : a < j := List.mem_range.mp ha
        simp [show a ≠ j by omega]
      rw [hhead, List.nil_append]
      simp [List.filterMap_cons]
      cases g j <;> simp

/-- When every request settles exactly once, index `j` receives exactly its
own outcome. -/
theorem urlsAt_of_one_event_per_index (events : List (Nat × Option String))
    (n : Nat) (f : Nat → Option String)
    (hev : events.Perm ((List.range n).map (fun i => (i, f i)))) (j : Nat)
    (hj : j < n) : urlsAt events j = (f j).toList := by
  have hperm : (urlsAt events j).Perm
      (urlsAt ((List.range n).map (fun i => (i, f i))) j) :=
    hev.filterMap _
  have hcomp : urlsAt ((List.range n).map (fun i => (i, f i))) j = (f j).toList := by
    unfold urlsAt
    rw [List.filterMap_map]
    exact range_filterMap_at f n j hj
  rw [hcomp] at hperm
  cases hf : f j with
  | none => rw [hf] at hperm; exact hperm.eq_nil
  | some u => rw [hf] at hperm; exact List.perm_singleton.mp hperm

/-- C8: when the illustration request at index `k` fails while every
request settles exactly once, the deck entry at `k` keeps `imageUrl`
absent but remains in place with its descriptor fields intact, every other
entry carries its own descriptor enriched with its own outcome, the deck
still has one entry per descriptor, and the settlement runs to
completion. -/
theorem illustration_failure_isolated (characters : List Descriptor)
    (events : List (Nat × Option String)) (f : Nat → Option String) (k : Nat)
    (hk : k < characters.length)
    (hev : events.Perm
      ((List.range characters.length).map (fun i => (i, f i))))
    (hfail : f k = none) :
    (settleAll (initialPhase characters) events).deck.length = characters.length ∧
    (∃ c, (settleAll (initialPhase characters) events).deck[k]? = some c ∧
      c.fact = (characters[k]).fact ∧
      c.characterName = (characters[k]).characterName ∧
      c.imagePrompt = (characters[k]).imagePrompt ∧
      c.imageUrl = none) ∧
    (∀ (j : Nat) (hj : j < characters.length), j ≠ k →
      ∃ c, (settleAll (initialPhase characters) events).deck[j]? = some c ∧
        c.fact = (characters[j]).fact ∧
        c.characterName = (characters[j]).characterName ∧
        c.imagePrompt = (characters[j]).imagePrompt ∧
        c.imageUrl = f j) := by
  have hlen : (settleAll (initialPhase characters) events).deck.length
      = characters.length := by
    rw [settleAll_deck_length events (initialPhase characters)]
    simp [initialPhase]
  refine ⟨hlen, ?_, ?_⟩
  · have h0 := initialPhase_deck_getElem characters k hk
    have h1 := settleAll_deck_getElem events (initialPhase characters) k _ h0
    rw [urlsAt_of_one_event_per_index events characters.length f hev k hk, hfail] at h1
    exact ⟨_, h1, rfl, rfl, rfl, rfl⟩
  · intro j hj hjk
    have h0 := initialPhase_deck_getElem characters j hj
    have h1 := settleAll_deck_getElem events (initialPhase characters) j _ h0
    rw [urlsAt_of_one_event_per_index events characters.length f hev j hj] at h1
    have hcore := applyUrls_core ((f j).toList) ((characters[j]).toCharacter)
    refine ⟨_, h1, hcore.1, hcore.2.1, hcore.2.2, ?_⟩
    cases f j <;> rfl

/-- The outcome assignment used by the C8 witness: request 1 succeeds,
request 0 fails. -/
def fW : Nat → Option String := fun i => if i = 1 then some "u1" else none

/-- Witness for C8: two descriptors, the first illustration fails, the
second succeeds, resolutions arrive in reverse order. -/
theorem illustration_failure_isolated_witness :
    0 < ([descA, descB] : List Descriptor).length ∧
    (([((1 : Nat), some "u1"), ((0 : Nat), (none : Option String))] :
        List (Nat × Option String)).Perm
      ((List.range ([descA, descB] : List Descriptor).length).map
        (fun i => (i, fW i)))) ∧
    fW 0 = none ∧
    (∃ c, (settleAll (initialPhase [descA, descB])
        [(1, some "u1"), (0, none)]).deck[0]? = some c ∧ c.imageUrl = none) ∧
    (∃ c, (settleAll (initialPhase [descA, descB])
        [(1, some "u1"), (0, none)]).deck[1]? = some c ∧ c.imageUrl = some "u1") := by
  refine ⟨by decide, by decide, by decide, ?_, ?_⟩
  · obtain ⟨-, ⟨c, hc, -, -, -, hurl⟩, -⟩ :=
      illustration_failure_isolated [descA, descB] [(1, some "u1"), (0, none)] fW 0
        (by decide) (by decide) (by decide)
    exact ⟨c, hc, hurl⟩
  · obtain ⟨-, -, hrest⟩ :=
      illustration_failure_isolated [descA, descB] [(1, some "u1"), (0, none)] fW 0
        (by decide) (by decide) (by decide)
    obtain ⟨c, hc, -, -, -, hurl⟩ := hrest 1 (by decide) (by decide)
    exact ⟨c, hc, hurl⟩

/-! ### Multiple-choice construction -/

/-- A character sharing `charA`'s fact under another name, for the
duplicated-fact counterexample. -/
def charA2 : Character := { fact := "A", characterName := "na2", imagePrompt := "pa2" }

/-- Filtering one element out of a duplicate-free list drops exactly one
entry. -/
theorem length_filter_ne {α : Type _} [DecidableEq α] :
    ∀ (l : List α) (a : α), l.Nodup → a ∈ l →
      (l.filter (fun b => b ≠ a)).length = l.length - 1 := by
  intro l a d hm
  induction l with
  | nil => cases hm
  | cons x t ih =>
    rw [List.nodup_cons] at d
    rcases List.mem_cons.mp hm with hx | ht
    · subst hx
      rw [List.filter_cons_of_neg (by simp)]
      rw [List.filter_eq_self.mpr (fun b hb => by
        simp only [decide_eq_true_eq]
        rintro rfl
        exact d.1 hb)]
      simp
    · have hxa : x ≠ a := by
        rintro rfl
        exact d.1 ht
      rw [List.filter_cons_of_pos (by simp [hxa])]
      have hih := ih d.2 ht
      have hlen : 1 ≤ t.length := List.length_pos.mpr (List.ne_nil_of_mem ht)
      simp only [List.length_cons, hih]
      omega

/-- C1 as stated is false at a deck of size 2: the quiz entry guard
(`deck.length ≥ 2`) holds, yet the generated option list has 2 entries,
not 3; moreover at a deck of size 3 holding a duplicated fact the 3
generated options are not pairwise distinct. -/
theorem generateMultipleChoice_pair_deck_counterexample :
    (2 ≤ ([charA, charB] : List Character).length ∧
      (generateMultipleChoice (fun _ => 0) (fun _ => 0) [charA, charB]
        (([charA, charB] : List Character)[0]).fact).length ≠ 3) ∧
    (2 ≤ ([charA, charA2, charB] : List Character).length ∧
      ¬ (generateMultipleChoice (fun _ => 0) (fun _ => 0) [charA, charA2, charB]
        (([charA, charA2, charB] : List Character)[2]).fact).Nodup) := by
  decide

/-- C1 (amended): on a deck of at least 3 cards whose facts are pairwise
distinct, for every outcome of both random shuffles,
`generateMultipleChoice` applied to the current descriptor's fact returns
exactly 3 pairwise-distinct options, one of which equals that fact. -/
theorem generateMultipleChoice_spec (r1 r2 : Nat → Nat) (deck : List Character)
    (idx : Nat) (hidx : idx < deck.length)
    (hnodup : (deck.map (fun c => c.fact)).Nodup) (hlen : 3 ≤ deck.length) :
    (generateMultipleChoice r1 r2 deck ((deck[idx]).fact)).length = 3 ∧
    (generateMultipleChoice r1 r2 deck ((deck[idx]).fact)).Nodup ∧
    (deck[idx]).fact ∈ generateMultipleChoice r1 r2 deck ((deck[idx]).fact) := by
  have hunfold : generateMultipleChoice r1 r2 deck ((deck[idx]).fact) =
      fisherYates r2 ((deck[idx]).fact ::
        (fisherYates r1 ((deck.map (fun c => c.fact)).filter
          (fun fact => fact ≠ (deck[idx]).fact))).take 2) := rfl
  rw [hunfold]
  have hmem : (deck[idx]).fact ∈ deck.map (fun c => c.fact) :=
    List.mem_map_of_mem _ (deck.getElem_mem hidx)
  have hmaplen : (deck.map (fun c => c.fact)).length = deck.length :=
    List.length_map deck _
  have hdlen : ((deck.map (fun c => c.fact)).filter
      (fun fact => fact ≠ (deck[idx]).fact)).length = deck.length - 1 := by
    rw [length_filter_ne (deck.map (fun c => c.fact)) ((deck[idx]).fact) hnodup hmem]
    rw [hmaplen]
  have hdnodup : ((deck.map (fun c => c.fact)).filter
      (fun fact => fact ≠ (deck[idx]).fact)).Nodup := hnodup.filter _
  have hdne : ∀ b ∈ (deck.map (fun c => c.fact)).filter
      (fun fact => fact ≠ (deck[idx]).fact), b ≠ (deck[idx]).fact := by
    intro b hb
    simpa using List.of_mem_filter hb
  have hperm1 := fisherYates_perm r1 ((deck.map (fun c => c.fact)).filter
    (fun fact => fact ≠ (deck[idx]).fact))
  have hslen : (fisherYates r1 ((deck.map (fun c => c.fact)).filter
      (fun fact => fact ≠ (deck[idx]).fact))).length = deck.length - 1 := by
    rw [hperm1.length_eq, hdlen]
  have hsnodup := hperm1.symm.nodup hdnodup
  have hsne : ∀ b ∈ fisherYates r1 ((deck.map (fun c => c.fact)).filter
      (fun fact => fact ≠ (deck[idx]).fact)), b ≠ (deck[idx]).fact :=
    fun b hb => hdne b (hperm1.mem_iff.mp hb)
  have htake : ∀ l : List String, l.length = deck.length - 1 → (l.take 2).length = 2 :=
    fun l hl => List.length_take_of_le (by omega)
  have ht2len := htake _ hslen
  have ht2nodup := hsnodup.sublist (List.take_sublist 2 _)
  have ht2ne : ∀ b ∈ (fisherYates r1 ((deck.map (fun c => c.fact)).filter
      (fun fact => fact ≠ (deck[idx]).fact))).take 2, b ≠ (deck[idx]).fact :=
    fun b hb => hsne b (List.mem_of_mem_take hb)
  have honodup : ((deck[idx]).fact ::
      (fisherYates r1 ((deck.map (fun c => c.fact)).filter
        (fun fact => fact ≠ (deck[idx]).fact))).take 2).Nodup :=
    List.nodup_cons.mpr ⟨fun hmem2 => ht2ne _ hmem2 rfl, ht2nodup⟩
  have hperm2 := fisherYates_perm r2 ((deck[idx]).fact ::
    (fisherYates r1 ((deck.map (fun c => c.fact)).filter
      (fun fact => fact ≠ (deck[idx]).fact))).take 2)
  refine ⟨?_, ?_, ?_⟩
  · rw [hperm2.length_eq, List.length_cons, ht2len]
  · exact hperm2.symm.nodup honodup
  · exact hperm2.mem_iff.mpr (List.mem_cons_self _ _)

/-- Witness for the amended C1 on a three-card deck with distinct facts. -/
theorem generateMultipleChoice_spec_witness :
    0 < ([charA, charB, charC] : List Character).length ∧
    (([charA, charB, charC] : List Character).map (fun c => c.fact)).Nodup ∧
    3 ≤ ([charA, charB, charC] : List Character).length ∧
    ((generateMultipleChoice (fun _ => 0) (fun _ => 0) [charA, charB, charC]
        ((([charA, charB, charC] : List Character)[0]).fact)).length = 3 ∧
      (generateMultipleChoice (fun _ => 0) (fun _ => 0) [charA, charB, charC]
        ((([charA, charB, charC] : List Character)[0]).fact)).Nodup ∧
      (([charA, charB, charC] : List Character)[0]).fact ∈
        generateMultipleChoice (fun _ => 0) (fun _ => 0) [charA, charB, charC]
          ((([charA, charB, charC] : List Character)[0]).fact)) :=
  ⟨by decide, by decide, by decide,
   generateMultipleChoice_spec (fun _ => 0) (fun _ => 0) [charA, charB, charC] 0
     (by decide) (by decide) (by decide)⟩

end MemoryPalace
